import Mathlib

/-!
Verification of the `TriangleMesh3` indexed triangle-mesh engine
(`src/jet/triangle_mesh3.cpp`) against its natural-language specification.

Shallow embedding conventions:
* machine `double` scalars are modelled as `ℚ`; `DBL_MAX` becomes the
  explicit rational constant `dblMax`;
* the single-triangle geometry primitive (`Triangle3`) is an external
  collaborator of the mesh class, so its capabilities (closest point,
  closest normal, closest distance, area, ray intersection, barycentric
  sampling, flat face normal) enter as function parameters — every theorem
  is proved for all implementations of those capabilities;
* `Array1<T>` is modelled as `List`; `operator[]` reads out of range are
  undefined behaviour in C++ and are modelled by `List.getD` with a fixed
  default;
* the out-parameter style of `getClosestIntersection` is modelled by
  passing the caller-initialized record in and returning the final record.
-/

namespace TriMesh

/-- 3D vector / point (`Vector3D`), componentwise rational. -/
abbrev V3 : Type := ℚ × ℚ × ℚ

/-- 2D vector (`Vector2D`). -/
abbrev V2 : Type := ℚ × ℚ

/-- Index triple (`Point3UI`). -/
abbrev I3 : Type := ℕ × ℕ × ℕ

/-- Zero vector, the value of a default-constructed `Vector3D`. -/
def vzero : V3 := (0, 0, 0)

/-- Componentwise vector subtraction. -/
def vsub (a b : V3) : V3 := (a.1 - b.1, a.2.1 - b.2.1, a.2.2 - b.2.2)

/-- Componentwise vector addition. -/
def vadd (a b : V3) : V3 := (a.1 + b.1, a.2.1 + b.2.1, a.2.2 + b.2.2)

/-- Scalar multiplication of a vector. -/
def vsmul (c : ℚ) (a : V3) : V3 := (c * a.1, c * a.2.1, c * a.2.2)

/-- Dot product of two 3D vectors. -/
def vdot (a b : V3) : ℚ := a.1 * b.1 + a.2.1 * b.2.1 + a.2.2 * b.2.2

/-- Cross product of two 3D vectors. -/
def vcross (a b : V3) : V3 :=
  (a.2.1 * b.2.2 - a.2.2 * b.2.1,
   a.2.2 * b.1 - a.1 * b.2.2,
   a.1 * b.2.1 - a.2.1 * b.1)

/-- `(a - b).lengthSquared()`: squared Euclidean distance. -/
def distSq (a b : V3) : ℚ :=
  (a.1 - b.1) ^ 2 + (a.2.1 - b.2.1) ^ 2 + (a.2.2 - b.2.2) ^ 2

/-- `std::numeric_limits<double>::max()` as an exact rational:
`DBL_MAX = (2^53 - 1) * 2^971 = 2^1024 - 2^971`. -/
def dblMax : ℚ := 2 ^ 1024 - 2 ^ 971

/-- The standalone triangle primitive `Triangle3`: three position, three
normal and three uv slots. -/
structure Tri where
  p0 : V3
  p1 : V3
  p2 : V3
  n0 : V3
  n1 : V3
  n2 : V3
  u0 : V2
  u1 : V2
  u2 : V2
deriving DecidableEq, Repr

/-- The closest-ray-intersection record `SurfaceRayIntersection3`:
hit point, normal, ray parameter `t`, and distance. -/
structure SRI where
  point : V3
  normal : V3
  t : ℚ
  distance : ℚ
deriving DecidableEq, Repr

/-- A ray (origin, direction); opaque to the mesh class, which only
forwards it to the triangle primitive. -/
structure Ray3 where
  origin : V3
  direction : V3
deriving DecidableEq, Repr

/-- The `TriangleMesh3` store: three attribute sequences and three
face-index sequences, plus the mutable derived `_areaCache`. -/
structure Mesh where
  points : List V3
  normals : List V3
  uvs : List V2
  pointIndices : List I3
  normalIndices : List I3
  uvIndices : List I3
  areaCache : List ℚ
deriving DecidableEq, Repr

/-- A default-constructed (empty) `TriangleMesh3`. -/
def emptyMesh : Mesh :=
  ⟨[], [], [], [], [], [], []⟩

/-- `numberOfFaces()`: the length of `_pointIndices`. -/
def Mesh.numberOfFaces (m : Mesh) : ℕ := m.pointIndices.length

/-- `hasNormals()`: `_normals.size() > 0`. -/
def Mesh.hasNormals (m : Mesh) : Bool := decide (0 < m.normals.length)

/-- `hasUvs()`: `_uvs.size() > 0`. -/
def Mesh.hasUvs (m : Mesh) : Bool := decide (0 < m.uvs.length)

/-- `TriangleMesh3::triangle(i)`: materialize face `i` into a standalone
triangle.  Positions (and uvs, when present) are gathered through the
index triples; normal slots are gathered through `_normalIndices` when the
mesh has normals, and otherwise all three are set to the triangle's own
flat face normal.  `fnormal` is the external `Triangle3::faceNormal`
capability, a function of the three gathered vertex positions. -/
def Mesh.triangle (fnormal : V3 → V3 → V3 → V3) (m : Mesh) (i : ℕ) : Tri :=
  let f := m.pointIndices.getD i (0, 0, 0)
  let p0 := m.points.getD f.1 vzero
  let p1 := m.points.getD f.2.1 vzero
  let p2 := m.points.getD f.2.2 vzero
  let uf := m.uvIndices.getD i (0, 0, 0)
  let u0 := if m.hasUvs then m.uvs.getD uf.1 (0, 0) else (0, 0)
  let u1 := if m.hasUvs then m.uvs.getD uf.2.1 (0, 0) else (0, 0)
  let u2 := if m.hasUvs then m.uvs.getD uf.2.2 (0, 0) else (0, 0)
  let n := fnormal p0 p1 p2
  let nf := m.normalIndices.getD i (0, 0, 0)
  let n0 := if m.hasNormals then m.normals.getD nf.1 vzero else n
  let n1 := if m.hasNormals then m.normals.getD nf.2.1 vzero else n
  let n2 := if m.hasNormals then m.normals.getD nf.2.2 vzero else n
  ⟨p0, p1, p2, n0, n1, n2, u0, u1, u2⟩

/-! ### Area cache (`computeAreaCache` / `computeAreaCacheP`) -/

/-- The cumulative loop of `computeAreaCache`: starting from a running
value `acc` (the previous cache entry), emit `acc` and continue with
`acc + area`; this produces `cache[0] = acc`, `cache[i] = cache[i-1] +
areas[i-1]`, one entry more than there are areas. -/
def buildCache : List ℚ → ℚ → List ℚ
  | [], acc => [acc]
  | a :: rest, acc => acc :: buildCache rest (acc + a)

/-- The normalization loop of `computeAreaCache`: entries `1..n` are
divided in place by `cache[numberOfFaces()]`, the last entry.  Because the
last entry is itself the final one divided (reading its pre-assignment
value), the divisor is the un-normalized total throughout, so the loop is
division of every entry after the head by `total`. -/
def normalizeCache (cache : List ℚ) (total : ℚ) : List ℚ :=
  match cache with
  | [] => []
  | c0 :: rest => c0 :: rest.map (fun c => c / total)

/-- Per-face triangle areas of the mesh, via the external
`Triangle3::area` capability. -/
def Mesh.faceAreas (fnormal : V3 → V3 → V3 → V3) (tarea : Tri → ℚ)
    (m : Mesh) : List ℚ :=
  (List.range m.numberOfFaces).map (fun i => tarea (m.triangle fnormal i))

/-- `TriangleMesh3::computeAreaCache` (and its `const` twin
`computeAreaCacheP`, whose body is identical): resize to
`numberOfFaces()+1`, set `cache[0] = 0`, accumulate
`cache[i] = cache[i-1] + area(face i-1)`, then normalize all entries past
the head by the total `cache[numberOfFaces()]`. -/
def Mesh.computeAreaCache (fnormal : V3 → V3 → V3 → V3) (tarea : Tri → ℚ)
    (m : Mesh) : List ℚ :=
  let cache := buildCache (m.faceAreas fnormal tarea) 0
  normalizeCache cache (cache.getLastD 0)

theorem buildCache_length (areas : List ℚ) (acc : ℚ) :
    (buildCache areas acc).length = areas.length + 1 := by
  induction areas generalizing acc with
  | nil => rfl
  | cons a rest ih => simp [buildCache, ih]

theorem buildCache_ne_nil (areas : List ℚ) (acc : ℚ) :
    buildCache areas acc ≠ [] := by
  cases areas <;> simp [buildCache]

theorem buildCache_getLastD (areas : List ℚ) (acc d : ℚ) :
    (buildCache areas acc).getLastD d = acc + areas.sum := by
  induction areas generalizing acc d with
  | nil => simp [buildCache]
  | cons a rest ih =>
      simp only [buildCache, List.getLastD_cons, List.sum_cons]
      rw [ih]
      ring

theorem buildCache_eq_map (areas : List ℚ) (acc : ℚ) :
    buildCache areas acc =
      (List.range (areas.length + 1)).map (fun i => acc + (areas.take i).sum) := by
  induction areas generalizing acc with
  | nil => simp [buildCache]
  | cons a rest ih =>
      rw [buildCache, ih]
      conv_rhs => rw [List.length_cons, List.range_succ_eq_map,
        List.map_cons, List.map_map]
      simp only [List.take_zero, List.sum_nil, add_zero]
      congr 1
      refine List.map_congr_left ?_
      intro i _
      simp only [Function.comp_apply, List.take_succ_cons, List.sum_cons]
      ring

theorem normalizeCache_map_range (f : ℕ → ℚ) (n : ℕ) (t : ℚ) (h : f 0 = 0) :
    normalizeCache ((List.range (n + 1)).map f) t =
      (List.range (n + 1)).map (fun i => f i / t) := by
  rw [List.range_succ_eq_map, List.map_cons, List.map_cons, normalizeCache]
  simp [List.map_map, h, Function.comp]

theorem Mesh.faceAreas_length (fnormal : V3 → V3 → V3 → V3) (tarea : Tri → ℚ)
    (m : Mesh) : (m.faceAreas fnormal tarea).length = m.numberOfFaces := by
  simp [Mesh.faceAreas]

theorem Mesh.computeAreaCache_eq_map (fnormal : V3 → V3 → V3 → V3)
    (tarea : Tri → ℚ) (m : Mesh) :
    m.computeAreaCache fnormal tarea =
      (List.range (m.numberOfFaces + 1)).map
        (fun i => ((m.faceAreas fnormal tarea).take i).sum /
          (m.faceAreas fnormal tarea).sum) := by
  show normalizeCache (buildCache (m.faceAreas fnormal tarea) 0)
      ((buildCache (m.faceAreas fnormal tarea) 0).getLastD 0) = _
  rw [buildCache_getLastD, zero_add, buildCache_eq_map,
    Mesh.faceAreas_length]
  simp only [zero_add]
  exact normalizeCache_map_range _ _ _ (by simp)

theorem sum_take_mono_of_nonneg (l : List ℚ) (h0 : ∀ a ∈ l, 0 ≤ a) (i : ℕ) :
    (l.take i).sum ≤ (l.take (i + 1)).sum := by
  by_cases hi : i < l.length
  · rw [List.sum_take_succ l i hi]
    have hx : 0 ≤ l[i] := h0 _ (List.getElem_mem hi)
    linarith
  · push_neg at hi
    rw [List.take_of_length_le hi, List.take_of_length_le (by omega)]

/-- **C3** — For every mesh with `n` faces and positive total area (and
per-face triangle areas nonnegative, as Euclidean areas are),
`computeAreaCache` produces a table of length `n+1` equal to the
normalized cumulative sums `cache[i] = (Σ areas of faces < i) / total` —
i.e. `cache[0] = 0` and `cache[i] = cache[i-1] + area(face i-1)` before
the in-place division by the total `cache[n]` — whose entries are
non-decreasing with the last entry equal to `1`. -/
theorem computeAreaCache_spec (fnormal : V3 → V3 → V3 → V3) (tarea : Tri → ℚ)
    (m : Mesh)
    (h0 : ∀ a ∈ m.faceAreas fnormal tarea, 0 ≤ a)
    (h1 : 0 < (m.faceAreas fnormal tarea).sum) :
    (m.computeAreaCache fnormal tarea).length = m.numberOfFaces + 1 ∧
    m.computeAreaCache fnormal tarea =
      (List.range (m.numberOfFaces + 1)).map
        (fun i => ((m.faceAreas fnormal tarea).take i).sum /
          (m.faceAreas fnormal tarea).sum) ∧
    (m.computeAreaCache fnormal tarea).headD 1 = 0 ∧
    List.Chain' (fun a b => a ≤ b) (m.computeAreaCache fnormal tarea) ∧
    (m.computeAreaCache fnormal tarea).getLastD 0 = 1 := by
  have hmap := m.computeAreaCache_eq_map fnormal tarea
  set areas := m.faceAreas fnormal tarea with hareas
  have hlen : areas.length = m.numberOfFaces := m.faceAreas_length fnormal tarea
  refine ⟨by rw [hmap]; simp, hmap, ?_, ?_, ?_⟩
  · rw [hmap, List.range_succ_eq_map]
    simp
  · rw [hmap, List.chain'_map, List.chain'_range_succ]
    intro i _
    have hstep := sum_take_mono_of_nonneg areas h0 i
    exact (div_le_div_iff_of_pos_right h1).mpr hstep
  · rw [hmap, List.range_succ, List.map_append, List.map_cons, List.map_nil,
      List.getLastD_concat]
    rw [← hlen, List.take_of_length_le (le_refl _)]
    exact div_self (ne_of_gt h1)

/-! ### The minimum-tracking linear scan shared by the query engine -/

/-- One step of the minimum-tracking scan of `closestPoint`,
`actualClosestNormal` and `getClosestIntersection`: replace the best
candidate so far exactly when the incoming candidate's measure is
strictly below the best measure so far. -/
def pickMin {α : Type} (f : α → ℚ) (s : α × ℚ) (c : α) : α × ℚ :=
  if f c < s.2 then (c, f c) else s

theorem List.getD_congr_dfl {α : Type} (l : List α) (i : ℕ)
    (h : i < l.length) (d1 d2 : α) : l.getD i d1 = l.getD i d2 := by
  rw [List.getD_eq_getElem _ _ h, List.getD_eq_getElem _ _ h]

/-- The scan `foldl (pickMin f) (b, d)` either leaves the accumulator
untouched (when no candidate beats `d`), or returns the first candidate
achieving the global minimum measure among those strictly below `d`. -/
theorem pickMin_foldl_spec {α : Type} (f : α → ℚ) (cs : List α) :
    ∀ (b : α) (d : ℚ),
      (cs.foldl (pickMin f) (b, d) = (b, d) ∧ ∀ c ∈ cs, d ≤ f c) ∨
      (∃ i : ℕ, i < cs.length ∧
        cs.foldl (pickMin f) (b, d) = (cs.getD i b, f (cs.getD i b)) ∧
        f (cs.getD i b) < d ∧
        (∀ j, j < cs.length → f (cs.getD i b) ≤ f (cs.getD j b)) ∧
        (∀ j, j < i → f (cs.getD i b) < f (cs.getD j b))) := by
  induction cs with
  | nil =>
      intro b d
      exact Or.inl ⟨rfl, by simp⟩
  | cons c rest ih =>
      intro b d
      rw [List.foldl_cons]
      by_cases h : f c < d
      · rw [show pickMin f (b, d) c = (c, f c) from if_pos h]
        rcases ih c (f c) with ⟨heq, hall⟩ | ⟨i, hi, heq, hlt, hmin, hfirst⟩
        · refine Or.inr ⟨0, by simp, by simpa using heq, by simpa using h,
            ?_, ?_⟩
          · intro j hj
            match j with
            | 0 => simp
            | j' + 1 =>
                simp only [List.getD_cons_succ, List.getD_cons_zero]
                have hj' : j' < rest.length := by
                  simpa using Nat.lt_of_succ_lt_succ hj
                refine hall _ ?_
                rw [List.getD_eq_getElem _ _ hj']
                exact List.getElem_mem hj'
          · intro j hj
            omega
        · have hilen : i < rest.length := hi
          have hchg : rest.getD i c = rest.getD i b :=
            List.getD_congr_dfl rest i hilen c b
          refine Or.inr ⟨i + 1, by simpa using Nat.succ_lt_succ hi, ?_, ?_,
            ?_, ?_⟩
          · simp only [List.getD_cons_succ]
            rw [← hchg]
            exact heq
          · simp only [List.getD_cons_succ]
            rw [← hchg]
            exact lt_trans hlt h
          · intro j hj
            match j with
            | 0 =>
                simp only [List.getD_cons_succ, List.getD_cons_zero, ← hchg]
                exact le_of_lt hlt
            | j' + 1 =>
                simp only [List.getD_cons_succ, ← hchg]
                have hj' : j' < rest.length := by
                  simpa using Nat.lt_of_succ_lt_succ hj
                rw [List.getD_congr_dfl rest j' hj' b c]
                exact hmin j' hj'
          · intro j hj
            match j with
            | 0 =>
                simp only [List.getD_cons_succ, List.getD_cons_zero, ← hchg]
                exact hlt
            | j' + 1 =>
                simp only [List.getD_cons_succ, ← hchg]
                have hj' : j' < i := Nat.lt_of_succ_lt_succ hj
                rw [List.getD_congr_dfl rest j' (lt_trans hj' hilen) b c]
                exact hfirst j' hj'
      · rw [show pickMin f (b, d) c = (b, d) from if_neg h]
        rcases ih b d with ⟨heq, hall⟩ | ⟨i, hi, heq, hlt, hmin, hfirst⟩
        · refine Or.inl ⟨heq, ?_⟩
          intro x hx
          rcases List.mem_cons.mp hx with hx | hx
          · exact hx ▸ le_of_not_lt h
          · exact hall x hx
        · refine Or.inr ⟨i + 1, by simpa using Nat.succ_lt_succ hi,
            by simpa using heq, by simpa using hlt, ?_, ?_⟩
          · intro j hj
            match j with
            | 0 =>
                simp only [List.getD_cons_succ, List.getD_cons_zero]
                exact le_trans (le_of_lt hlt) (le_of_not_lt h)
            | j' + 1 =>
                simp only [List.getD_cons_succ]
                have hj' : j' < rest.length := by
                  simpa using Nat.lt_of_succ_lt_succ hj
                exact hmin j' hj'
          · intro j hj
            match j with
            | 0 =>
                simp only [List.getD_cons_succ, List.getD_cons_zero]
                exact lt_of_lt_of_le hlt (le_of_not_lt h)
            | j' + 1 =>
                simp only [List.getD_cons_succ]
                exact hfirst j' (Nat.lt_of_succ_lt_succ hj)

theorem getD_map_range {α : Type} (g : ℕ → α) (n i : ℕ) (h : i < n) (d : α) :
    ((List.range n).map g).getD i d = g i := by
  rw [List.getD_eq_getElem _ _ (by simpa using h)]
  simp

/-! ### Query engine: closest point / normal / distance -/

/-- `TriangleMesh3::closestPoint`: linear scan over all faces; for each,
materialize the triangle, take its closest point to `otherPoint` via the
external capability `tcp`, and keep the point of minimal squared
Euclidean distance under a strict `<` comparison, starting from the
sentinel point `(DBL_MAX, DBL_MAX, DBL_MAX)` at squared distance
`DBL_MAX`. -/
def Mesh.closestPoint (fnormal : V3 → V3 → V3 → V3) (tcp : Tri → V3 → V3)
    (m : Mesh) (otherPoint : V3) : V3 :=
  ((List.range m.numberOfFaces).foldl
    (fun s i =>
      let pt := tcp (m.triangle fnormal i) otherPoint
      let distSquared := distSq otherPoint pt
      if distSquared < s.2 then (pt, distSquared) else s)
    ((dblMax, dblMax, dblMax), dblMax)).1

/-- `TriangleMesh3::actualClosestNormal`: same scan as `closestPoint`,
additionally recording the minimizing triangle's closest normal (external
capability `tcn`); the normal starts from the sentinel `(1, 0, 0)`. -/
def Mesh.actualClosestNormal (fnormal : V3 → V3 → V3 → V3)
    (tcp : Tri → V3 → V3) (tcn : Tri → V3 → V3)
    (m : Mesh) (otherPoint : V3) : V3 :=
  ((List.range m.numberOfFaces).foldl
    (fun s i =>
      let pt := tcp (m.triangle fnormal i) otherPoint
      let distSquared := distSq otherPoint pt
      if distSquared < s.2.2 then
        (pt, (tcn (m.triangle fnormal i) otherPoint, distSquared))
      else s)
    ((dblMax, dblMax, dblMax), ((1, 0, 0), dblMax))).2.1

/-- `TriangleMesh3::closestDistance`: linear scan folding
`min` of the per-triangle closest distances (external capability `tcd`),
starting from `DBL_MAX`. -/
def Mesh.closestDistance (fnormal : V3 → V3 → V3 → V3) (tcd : Tri → V3 → ℚ)
    (m : Mesh) (otherPoint : V3) : ℚ :=
  (List.range m.numberOfFaces).foldl
    (fun minDist i => min minDist (tcd (m.triangle fnormal i) otherPoint))
    dblMax

/-- **C1** — `closestPoint(p)` linearly scans all faces, computes each
face-triangle's closest point to `p`, tracks the minimum squared
Euclidean distance under a strict `<` comparison, and returns the
minimizing point; on equal distances the first-encountered (lowest-index)
face's result is kept: the returned point is the closest point of a face
`i` whose squared distance is a global minimum and is strictly below
every earlier face's squared distance. -/
theorem closestPoint_spec (fnormal : V3 → V3 → V3 → V3) (tcp : Tri → V3 → V3)
    (m : Mesh) (p : V3)
    (hn : 0 < m.numberOfFaces)
    (hd : ∀ i, i < m.numberOfFaces →
      distSq p (tcp (m.triangle fnormal i) p) < dblMax) :
    ∃ i, i < m.numberOfFaces ∧
      m.closestPoint fnormal tcp p = tcp (m.triangle fnormal i) p ∧
      (∀ j, j < m.numberOfFaces →
        distSq p (tcp (m.triangle fnormal i) p) ≤
          distSq p (tcp (m.triangle fnormal j) p)) ∧
      (∀ j, j < i →
        distSq p (tcp (m.triangle fnormal i) p) <
          distSq p (tcp (m.triangle fnormal j) p)) := by
  have hfold : m.closestPoint fnormal tcp p =
      (((List.range m.numberOfFaces).map
          (fun i => tcp (m.triangle fnormal i) p)).foldl
        (pickMin (distSq p)) ((dblMax, dblMax, dblMax), dblMax)).1 := by
    rw [List.foldl_map]
    rfl
  rcases pickMin_foldl_spec (distSq p)
      ((List.range m.numberOfFaces).map (fun i => tcp (m.triangle fnormal i) p))
      (dblMax, dblMax, dblMax) dblMax with
    ⟨_, hall⟩ | ⟨i, hi, heq, _, hmin, hfirst⟩
  · exfalso
    have h0 : tcp (m.triangle fnormal 0) p ∈
        (List.range m.numberOfFaces).map (fun i => tcp (m.triangle fnormal i) p) :=
      List.mem_map_of_mem _ (List.mem_range.mpr hn)
    exact absurd (hall _ h0) (not_le.mpr (hd 0 hn))
  · rw [List.length_map, List.length_range] at hi
    have hgd : ∀ j, j < m.numberOfFaces →
        ((List.range m.numberOfFaces).map
          (fun i => tcp (m.triangle fnormal i) p)).getD j (dblMax, dblMax, dblMax) =
          tcp (m.triangle fnormal j) p := by
      intro j hj
      exact getD_map_range _ _ _ hj _
    refine ⟨i, hi, ?_, ?_, ?_⟩
    · rw [hfold, heq, hgd i hi]
    · intro j hj
      have := hmin j (by simpa using hj)
      rwa [hgd i hi, hgd j hj] at this
    · intro j hj
      have := hfirst j hj
      rwa [hgd i hi, hgd j (lt_trans hj hi)] at this

/-- Shared concrete capabilities and meshes used by the witnesses. -/
def wfn : V3 → V3 → V3 → V3 := fun _ _ _ => vzero

def wtcp : Tri → V3 → V3 := fun t _ => t.p0

def wtcn : Tri → V3 → V3 := fun _ _ => vzero

def wtcd : Tri → V3 → ℚ := fun _ _ => 0

def warea : Tri → ℚ := fun _ => 1

/-- A one-triangle mesh `(0,0,0),(1,0,0),(0,1,0)` with face `(0,1,2)`. -/
def wMesh1 : Mesh :=
  ⟨[(0, 0, 0), (1, 0, 0), (0, 1, 0)], [], [], [(0, 1, 2)], [], [], []⟩

theorem closestPoint_spec_witness :
    0 < wMesh1.numberOfFaces ∧
    (∀ i, i < wMesh1.numberOfFaces →
      distSq (0, 0, 1) (wtcp (wMesh1.triangle wfn i) (0, 0, 1)) < dblMax) ∧
    ∃ i, i < wMesh1.numberOfFaces ∧
      wMesh1.closestPoint wfn wtcp (0, 0, 1) =
        wtcp (wMesh1.triangle wfn i) (0, 0, 1) ∧
      (∀ j, j < wMesh1.numberOfFaces →
        distSq (0, 0, 1) (wtcp (wMesh1.triangle wfn i) (0, 0, 1)) ≤
          distSq (0, 0, 1) (wtcp (wMesh1.triangle wfn j) (0, 0, 1))) ∧
      (∀ j, j < i →
        distSq (0, 0, 1) (wtcp (wMesh1.triangle wfn i) (0, 0, 1)) <
          distSq (0, 0, 1) (wtcp (wMesh1.triangle wfn j) (0, 0, 1))) := by
  have hd : ∀ i, i < wMesh1.numberOfFaces →
      distSq (0, 0, 1) (wtcp (wMesh1.triangle wfn i) (0, 0, 1)) < dblMax := by
    intro i hi
    simp only [wMesh1, Mesh.numberOfFaces, List.length_cons, List.length_nil] at hi
    interval_cases i
    norm_num [distSq, wtcp, wMesh1, Mesh.triangle, dblMax, vzero,
      Mesh.hasUvs, Mesh.hasNormals]
  exact ⟨by decide, hd,
    closestPoint_spec wfn wtcp wMesh1 (0, 0, 1) (by decide) hd⟩

/-- **C10** — On a mesh with zero faces, for every input point `p`,
`closestPoint(p)` returns `(DBL_MAX, DBL_MAX, DBL_MAX)`,
`closestDistance(p)` returns `DBL_MAX`, and `actualClosestNormal(p)`
returns `(1, 0, 0)` — the fixed scan initializers, since the loop body
never executes. -/
theorem zero_faces_sentinels (fnormal : V3 → V3 → V3 → V3)
    (tcp : Tri → V3 → V3) (tcn : Tri → V3 → V3) (tcd : Tri → V3 → ℚ)
    (m : Mesh) (p : V3) (h : m.numberOfFaces = 0) :
    m.closestPoint fnormal tcp p = (dblMax, dblMax, dblMax) ∧
    m.closestDistance fnormal tcd p = dblMax ∧
    m.actualClosestNormal fnormal tcp tcn p = (1, 0, 0) := by
  unfold Mesh.closestPoint Mesh.closestDistance Mesh.actualClosestNormal
  rw [h]
  exact ⟨rfl, rfl, rfl⟩

theorem zero_faces_sentinels_witness :
    emptyMesh.numberOfFaces = 0 ∧
    (emptyMesh.closestPoint wfn wtcp (1, 2, 3) = (dblMax, dblMax, dblMax) ∧
     emptyMesh.closestDistance wfn wtcd (1, 2, 3) = dblMax ∧
     emptyMesh.actualClosestNormal wfn wtcp wtcn (1, 2, 3) = (1, 0, 0)) :=
  ⟨rfl, zero_faces_sentinels wfn wtcp wtcn wtcd emptyMesh (1, 2, 3) rfl⟩

theorem computeAreaCache_spec_witness :
    (∀ a ∈ wMesh1.faceAreas wfn warea, 0 ≤ a) ∧
    0 < (wMesh1.faceAreas wfn warea).sum ∧
    ((wMesh1.computeAreaCache wfn warea).length = wMesh1.numberOfFaces + 1 ∧
     wMesh1.computeAreaCache wfn warea =
       (List.range (wMesh1.numberOfFaces + 1)).map
         (fun i => ((wMesh1.faceAreas wfn warea).take i).sum /
           (wMesh1.faceAreas wfn warea).sum) ∧
     (wMesh1.computeAreaCache wfn warea).headD 1 = 0 ∧
     List.Chain' (fun a b => a ≤ b) (wMesh1.computeAreaCache wfn warea) ∧
     (wMesh1.computeAreaCache wfn warea).getLastD 0 = 1) := by
  have hsum : 0 < (wMesh1.faceAreas wfn warea).sum := by
    rw [show wMesh1.faceAreas wfn warea = [1] from rfl]
    norm_num
  exact ⟨by decide, hsum,
    computeAreaCache_spec wfn warea wMesh1 (by decide) hsum⟩

/-! ### Closest ray intersection -/

/-- `TriangleMesh3::getClosestIntersection`: scan all faces; for each,
obtain the triangle's closest-intersection record (external capability
`tgci`), and overwrite the caller's record exactly when the incoming
record's ray parameter `t` is strictly below the running minimum, which
starts at `DBL_MAX`.  The caller's record `intersection` is returned
unchanged when no update ever fires. -/
def Mesh.getClosestIntersection (fnormal : V3 → V3 → V3 → V3)
    (tgci : Tri → Ray3 → SRI) (m : Mesh) (ray : Ray3)
    (intersection : SRI) : SRI :=
  ((List.range m.numberOfFaces).foldl
    (fun s i =>
      let tmpIntersection := tgci (m.triangle fnormal i) ray
      if tmpIntersection.t < s.2 then (tmpIntersection, tmpIntersection.t)
      else s)
    (intersection, dblMax)).1

/-- **C4** — `getClosestIntersection(ray, out)` scans every face and
writes into `out` the intersection record with minimal ray parameter `t`
among intersected faces (those whose record has `t` below the `DBL_MAX`
scan initializer), first-encountered face winning ties; if no face
intersects, `out` is never written, so the whole record — its `t`
sentinel and all other fields — remains exactly the caller's initial
value. -/
theorem getClosestIntersection_spec (fnormal : V3 → V3 → V3 → V3)
    (tgci : Tri → Ray3 → SRI) (m : Mesh) (ray : Ray3) (init : SRI) :
    ((∀ i, i < m.numberOfFaces →
        ¬ (tgci (m.triangle fnormal i) ray).t < dblMax) →
      m.getClosestIntersection fnormal tgci ray init = init) ∧
    (∀ i0, i0 < m.numberOfFaces →
      (tgci (m.triangle fnormal i0) ray).t < dblMax →
      ∃ i, i < m.numberOfFaces ∧
        m.getClosestIntersection fnormal tgci ray init =
          tgci (m.triangle fnormal i) ray ∧
        (tgci (m.triangle fnormal i) ray).t < dblMax ∧
        (∀ j, j < m.numberOfFaces →
          (tgci (m.triangle fnormal i) ray).t ≤
            (tgci (m.triangle fnormal j) ray).t) ∧
        (∀ j, j < i →
          (tgci (m.triangle fnormal i) ray).t <
            (tgci (m.triangle fnormal j) ray).t)) := by
  have hfold : m.getClosestIntersection fnormal tgci ray init =
      (((List.range m.numberOfFaces).map
          (fun i => tgci (m.triangle fnormal i) ray)).foldl
        (pickMin SRI.t) (init, dblMax)).1 := by
    rw [List.foldl_map]
    rfl
  have hgd : ∀ j, j < m.numberOfFaces →
      ((List.range m.numberOfFaces).map
        (fun i => tgci (m.triangle fnormal i) ray)).getD j init =
        tgci (m.triangle fnormal j) ray := by
    intro j hj
    exact getD_map_range _ _ _ hj _
  rcases pickMin_foldl_spec SRI.t
      ((List.range m.numberOfFaces).map (fun i => tgci (m.triangle fnormal i) ray))
      init dblMax with
    ⟨heq, hall⟩ | ⟨i, hi, heq, hlt, hmin, hfirst⟩
  · constructor
    · intro _
      rw [hfold, heq]
    · intro i0 hi0 ht0
      exfalso
      have hmem : tgci (m.triangle fnormal i0) ray ∈
          (List.range m.numberOfFaces).map
            (fun i => tgci (m.triangle fnormal i) ray) :=
        List.mem_map_of_mem _ (List.mem_range.mpr hi0)
      exact absurd (hall _ hmem) (not_le.mpr ht0)
  · rw [List.length_map, List.length_range] at hi
    constructor
    · intro hnone
      exfalso
      have := hlt
      rw [hgd i hi] at this
      exact hnone i hi this
    · intro i0 hi0 _
      refine ⟨i, hi, ?_, ?_, ?_, ?_⟩
      · rw [hfold, heq, hgd i hi]
      · rw [hgd i hi] at hlt
        exact hlt
      · intro j hj
        have := hmin j (by simpa using hj)
        rwa [hgd i hi, hgd j hj] at this
      · intro j hj
        have := hfirst j hj
        rwa [hgd i hi, hgd j (lt_trans hj hi)] at this

/-- A concrete intersection capability reporting a hit at ray parameter
`5` on every triangle, and one reporting no hit (the `DBL_MAX`
sentinel). -/
def wgciHit : Tri → Ray3 → SRI := fun _ _ => ⟨vzero, vzero, 5, 5⟩

def wgciMiss : Tri → Ray3 → SRI := fun _ _ => ⟨vzero, vzero, dblMax, 0⟩

def wray : Ray3 := ⟨vzero, (0, 0, 1)⟩

def wsri : SRI := ⟨vzero, (1, 0, 0), dblMax, 0⟩

theorem getClosestIntersection_spec_witness :
    ((∀ i, i < wMesh1.numberOfFaces →
        ¬ (wgciMiss (wMesh1.triangle wfn i) wray).t < dblMax) →
      wMesh1.getClosestIntersection wfn wgciMiss wray wsri = wsri) ∧
    (0 < wMesh1.numberOfFaces ∧
      (wgciHit (wMesh1.triangle wfn 0) wray).t < dblMax ∧
      ∃ i, i < wMesh1.numberOfFaces ∧
        wMesh1.getClosestIntersection wfn wgciHit wray wsri =
          wgciHit (wMesh1.triangle wfn i) wray ∧
        (wgciHit (wMesh1.triangle wfn i) wray).t < dblMax ∧
        (∀ j, j < wMesh1.numberOfFaces →
          (wgciHit (wMesh1.triangle wfn i) wray).t ≤
            (wgciHit (wMesh1.triangle wfn j) wray).t) ∧
        (∀ j, j < i →
          (wgciHit (wMesh1.triangle wfn i) wray).t <
            (wgciHit (wMesh1.triangle wfn j) wray).t)) := by
  have ht : (wgciHit (wMesh1.triangle wfn 0) wray).t < dblMax := by
    show (5 : ℚ) < dblMax
    rw [dblMax]
    norm_num
  exact ⟨(getClosestIntersection_spec wfn wgciMiss wMesh1 wray wsri).1,
    by decide, ht,
    (getClosestIntersection_spec wfn wgciHit wMesh1 wray wsri).2 0
      (by decide) ht⟩

/-! ### Stochastic sampling (`sample`) -/

/-- `std::lower_bound(begin, end, u1)` on the cache: index of the first
entry that is not less than `u1`, or the cache length when every entry is
below `u1`; on the sorted cumulative table this is exactly what the C++
binary search returns. -/
def lowerBoundIdx (cache : List ℚ) (u1 : ℚ) : ℕ :=
  cache.findIdx (fun c => decide (u1 ≤ c))

/-- `TriangleMesh3::sample(u1, u2, u3, x, n)`: recompute the area cache
when its length is not `numberOfFaces()+1`; lower-bound `u1` in the
cache; select face `ptr - 1` when the lower-bound position is past the
start and `0` otherwise; then sample the materialized triangle with
`(u2, u3)` via the external barycentric-sampling capability `tsmp`. -/
def Mesh.sample (fnormal : V3 → V3 → V3 → V3) (tarea : Tri → ℚ)
    (tsmp : Tri → ℚ → ℚ → V3 × V3) (m : Mesh) (u1 u2 u3 : ℚ) : V3 × V3 :=
  let cache :=
    if m.areaCache.length ≠ m.numberOfFaces + 1 then
      m.computeAreaCache fnormal tarea
    else m.areaCache
  let ptr := lowerBoundIdx cache u1
  let offset := if 0 < ptr then ptr - 1 else 0
  tsmp (m.triangle fnormal offset) u2 u3

theorem lowerBoundIdx_le (cache : List ℚ) (u1 : ℚ) (n : ℕ)
    (hlen : cache.length = n + 1) (hlast : u1 ≤ cache.getD n 0) :
    lowerBoundIdx cache u1 ≤ n := by
  by_contra hcon
  push_neg at hcon
  have hn : n < cache.length := by omega
  have hcon2 : n < cache.findIdx (fun c => decide (u1 ≤ c)) := hcon
  have hfalse := List.not_of_lt_findIdx hcon2
  rw [List.getD_eq_getElem _ _ hn] at hlast
  simp only [decide_eq_false_iff_not, not_le] at hfalse
  exact absurd hlast (not_le.mpr hfalse)

/-- **C2** — For a mesh with at least one face and positive total area
and `u1 ∈ [0,1)`, `sample(u1,u2,u3)` first ensures the area cache has
length `numberOfFaces()+1`, recomputing it exactly when the length
differs (assuming a length-matching stored cache is the computed one —
the invariant the lazy length check relies on); the selected face index
is `max(0, position-1)` (natural subtraction `position - 1`) of the
lower-bound index of `u1` in the cache, that index is a valid face index,
and the result samples point and normal on that triangle with
`(u2, u3)`. -/
theorem sample_spec (fnormal : V3 → V3 → V3 → V3) (tarea : Tri → ℚ)
    (tsmp : Tri → ℚ → ℚ → V3 × V3) (m : Mesh) (u1 u2 u3 : ℚ)
    (hn : 0 < m.numberOfFaces)
    (hsum : 0 < (m.faceAreas fnormal tarea).sum)
    (hcache : m.areaCache.length = m.numberOfFaces + 1 →
      m.areaCache = m.computeAreaCache fnormal tarea)
    (_hu0 : 0 ≤ u1) (hu1 : u1 < 1) :
    (if m.areaCache.length ≠ m.numberOfFaces + 1 then
        m.computeAreaCache fnormal tarea
      else m.areaCache) = m.computeAreaCache fnormal tarea ∧
    (m.computeAreaCache fnormal tarea).length = m.numberOfFaces + 1 ∧
    lowerBoundIdx (m.computeAreaCache fnormal tarea) u1 - 1 <
      m.numberOfFaces ∧
    m.sample fnormal tarea tsmp u1 u2 u3 =
      tsmp (m.triangle fnormal
        (lowerBoundIdx (m.computeAreaCache fnormal tarea) u1 - 1)) u2 u3 := by
  have hareaslen : (m.faceAreas fnormal tarea).length = m.numberOfFaces :=
    m.faceAreas_length fnormal tarea
  have hcc : (if m.areaCache.length ≠ m.numberOfFaces + 1 then
      m.computeAreaCache fnormal tarea else m.areaCache) =
      m.computeAreaCache fnormal tarea := by
    by_cases hl : m.areaCache.length = m.numberOfFaces + 1
    · rw [if_neg (by simp [hl]), hcache hl]
    · rw [if_pos hl]
  have hclen : (m.computeAreaCache fnormal tarea).length =
      m.numberOfFaces + 1 := by
    rw [m.computeAreaCache_eq_map fnormal tarea]
    simp
  have hlast : (m.computeAreaCache fnormal tarea).getD m.numberOfFaces 0 = 1 := by
    rw [m.computeAreaCache_eq_map fnormal tarea,
      getD_map_range _ _ _ (by omega) _]
    rw [← hareaslen, List.take_of_length_le (le_refl _)]
    exact div_self (ne_of_gt hsum)
  have hlb : lowerBoundIdx (m.computeAreaCache fnormal tarea) u1 ≤
      m.numberOfFaces :=
    lowerBoundIdx_le _ _ _ hclen (by rw [hlast]; exact le_of_lt hu1)
  have hoffset : (if 0 < lowerBoundIdx (m.computeAreaCache fnormal tarea) u1
      then lowerBoundIdx (m.computeAreaCache fnormal tarea) u1 - 1 else 0) =
      lowerBoundIdx (m.computeAreaCache fnormal tarea) u1 - 1 := by
    by_cases hp : 0 < lowerBoundIdx (m.computeAreaCache fnormal tarea) u1
    · rw [if_pos hp]
    · rw [if_neg hp]
      omega
  refine ⟨hcc, hclen, by omega, ?_⟩
  show tsmp (m.triangle fnormal
      (if 0 < lowerBoundIdx (if m.areaCache.length ≠ m.numberOfFaces + 1 then
          m.computeAreaCache fnormal tarea else m.areaCache) u1
        then lowerBoundIdx (if m.areaCache.length ≠ m.numberOfFaces + 1 then
          m.computeAreaCache fnormal tarea else m.areaCache) u1 - 1
        else 0)) u2 u3 = _
  rw [hcc, hoffset]

/-- A concrete barycentric-sampling capability for the witnesses. -/
def wtsmp : Tri → ℚ → ℚ → V3 × V3 := fun t _ _ => (t.p0, vzero)

theorem sample_spec_witness :
    0 < wMesh1.numberOfFaces ∧
    0 < (wMesh1.faceAreas wfn warea).sum ∧
    (wMesh1.areaCache.length = wMesh1.numberOfFaces + 1 →
      wMesh1.areaCache = wMesh1.computeAreaCache wfn warea) ∧
    (0 : ℚ) ≤ 1 / 2 ∧ (1 : ℚ) / 2 < 1 ∧
    ((if wMesh1.areaCache.length ≠ wMesh1.numberOfFaces + 1 then
        wMesh1.computeAreaCache wfn warea
      else wMesh1.areaCache) = wMesh1.computeAreaCache wfn warea ∧
    (wMesh1.computeAreaCache wfn warea).length = wMesh1.numberOfFaces + 1 ∧
    lowerBoundIdx (wMesh1.computeAreaCache wfn warea) (1 / 2) - 1 <
      wMesh1.numberOfFaces ∧
    wMesh1.sample wfn warea wtsmp (1 / 2) (1 / 3) (1 / 4) =
      wtsmp (wMesh1.triangle wfn
        (lowerBoundIdx (wMesh1.computeAreaCache wfn warea) (1 / 2) - 1))
        (1 / 3) (1 / 4)) := by
  have hsum : 0 < (wMesh1.faceAreas wfn warea).sum := by
    rw [show wMesh1.faceAreas wfn warea = [1] from rfl]
    norm_num
  have hc : wMesh1.areaCache.length = wMesh1.numberOfFaces + 1 →
      wMesh1.areaCache = wMesh1.computeAreaCache wfn warea := by
    intro h
    exact absurd h (by decide)
  exact ⟨by decide, hsum, hc, by norm_num, by norm_num,
    sample_spec wfn warea wtsmp wMesh1 (1 / 2) (1 / 3) (1 / 4)
      (by decide) hsum hc (by norm_num) (by norm_num)⟩

/-! ### Flat per-face normals (`setFaceNormal`) -/

/-- `Array1<T>::resize(size, initVal)`: keep the existing prefix and fill
any growth with the fill value (a default-constructed `Vector3D` is the
zero vector). -/
def listResize {α : Type} (l : List α) (n : ℕ) (fill : α) : List α :=
  l.take n ++ List.replicate (n - l.length) fill

/-- `triangle(i).faceNormal()` as used by `setFaceNormal`: the external
flat-normal capability applied to face `f`'s three gathered vertex
positions (which the assignment loop never mutates). -/
def Mesh.flatNormal (fnormal : V3 → V3 → V3 → V3) (m : Mesh) (f : I3) : V3 :=
  fnormal (m.points.getD f.1 vzero) (m.points.getD f.2.1 vzero)
    (m.points.getD f.2.2 vzero)

/-- The assignment loop of `setFaceNormal`: for every face in insertion
order, write the face's flat normal into all three of its vertices'
normal slots. -/
def writeFaceNormals (fnormal : V3 → V3 → V3 → V3) (pts : List V3) :
    List I3 → List V3 → List V3
  | [], ns => ns
  | f :: rest, ns =>
      let n := fnormal (pts.getD f.1 vzero) (pts.getD f.2.1 vzero)
        (pts.getD f.2.2 vzero)
      writeFaceNormals fnormal pts rest
        (((ns.set f.1 n).set f.2.1 n).set f.2.2 n)

/-- `TriangleMesh3::setFaceNormal`: resize `_normals` to the position
count, set `_normalIndices` to `_pointIndices`, then run the per-face
assignment loop. -/
def Mesh.setFaceNormal (fnormal : V3 → V3 → V3 → V3) (m : Mesh) : Mesh :=
  { m with
    normals := writeFaceNormals fnormal m.points m.pointIndices
      (listResize m.normals m.points.length vzero),
    normalIndices := m.pointIndices }

/-- Membership of vertex id `v` in a face-index triple. -/
def faceContains (f : I3) (v : ℕ) : Prop :=
  f.1 = v ∨ f.2.1 = v ∨ f.2.2 = v

instance (f : I3) (v : ℕ) : Decidable (faceContains f v) := by
  unfold faceContains
  infer_instance

theorem listResize_length {α : Type} (l : List α) (n : ℕ) (fill : α) :
    (listResize l n fill).length = n := by
  simp [listResize, List.length_take]
  omega

theorem getD_set_ne {α : Type} (l : List α) (i v : ℕ) (a d : α) (h : i ≠ v) :
    (l.set i a).getD v d = l.getD v d := by
  simp [List.getD_eq_getElem?_getD, List.getElem?_set_ne h]

theorem getD_set_self {α : Type} (l : List α) (v : ℕ) (a d : α)
    (h : v < l.length) : (l.set v a).getD v d = a := by
  simp [List.getD_eq_getElem?_getD, List.getElem?_set_self h]

theorem triple_set_getD (ns : List V3) (f : I3) (n : V3) (v : ℕ) (d : V3)
    (hv : v < ns.length) (hc : faceContains f v) :
    ((((ns.set f.1 n).set f.2.1 n).set f.2.2 n).getD v d) = n := by
  by_cases h2 : f.2.2 = v
  · rw [h2]
    exact getD_set_self _ _ _ _ (by simpa using hv)
  · rw [getD_set_ne _ _ _ _ _ h2]
    by_cases h1 : f.2.1 = v
    · rw [h1]
      exact getD_set_self _ _ _ _ (by simpa using hv)
    · rw [getD_set_ne _ _ _ _ _ h1]
      rcases hc with h0 | h1c | h2c
      · rw [h0]
        exact getD_set_self _ _ _ _ hv
      · exact absurd h1c h1
      · exact absurd h2c h2

theorem triple_set_getD_ne (ns : List V3) (f : I3) (n : V3) (v : ℕ) (d : V3)
    (hc : ¬ faceContains f v) :
    ((((ns.set f.1 n).set f.2.1 n).set f.2.2 n).getD v d) = ns.getD v d := by
  unfold faceContains at hc
  push_neg at hc
  rw [getD_set_ne _ _ _ _ _ hc.2.2, getD_set_ne _ _ _ _ _ hc.2.1,
    getD_set_ne _ _ _ _ _ hc.1]

theorem writeFaceNormals_length (fnormal : V3 → V3 → V3 → V3) (pts : List V3)
    (faces : List I3) : ∀ ns : List V3,
    (writeFaceNormals fnormal pts faces ns).length = ns.length := by
  induction faces with
  | nil => intro ns; rfl
  | cons f rest ih =>
      intro ns
      rw [writeFaceNormals, ih]
      simp

theorem writeFaceNormals_not_contains (fnormal : V3 → V3 → V3 → V3)
    (pts : List V3) (faces : List I3) (v : ℕ) (d : V3)
    (h : ∀ f ∈ faces, ¬ faceContains f v) : ∀ ns : List V3,
    (writeFaceNormals fnormal pts faces ns).getD v d = ns.getD v d := by
  induction faces with
  | nil => intro ns; rfl
  | cons f rest ih =>
      intro ns
      rw [writeFaceNormals]
      rw [ih (fun g hg => h g (List.mem_cons_of_mem f hg))]
      exact triple_set_getD_ne ns f _ v d (h f (List.mem_cons_self f rest))

theorem writeFaceNormals_last_writer (fnormal : V3 → V3 → V3 → V3)
    (pts : List V3) (faces : List I3) (v : ℕ) (d : V3) (j : ℕ) :
    ∀ ns : List V3, v < ns.length →
    j < faces.length →
    faceContains (faces.getD j (0, 0, 0)) v →
    (∀ k, j < k → k < faces.length →
      ¬ faceContains (faces.getD k (0, 0, 0)) v) →
    (writeFaceNormals fnormal pts faces ns).getD v d =
      fnormal (pts.getD (faces.getD j (0, 0, 0)).1 vzero)
        (pts.getD (faces.getD j (0, 0, 0)).2.1 vzero)
        (pts.getD (faces.getD j (0, 0, 0)).2.2 vzero) := by
  induction faces generalizing j with
  | nil =>
      intro ns _ hj
      exact absurd hj (by simp)
  | cons f rest ih =>
      intro ns hv hj hcont hlater
      match j with
      | 0 =>
          simp only [List.getD_cons_zero] at hcont ⊢
          rw [writeFaceNormals]
          have hnone : ∀ g ∈ rest, ¬ faceContains g v := by
            intro g hg
            rcases List.getElem_of_mem hg with ⟨k, hk, hgk⟩
            have := hlater (k + 1) (by omega) (by simpa using Nat.succ_lt_succ hk)
            rw [List.getD_cons_succ, List.getD_eq_getElem _ _ hk, hgk] at this
            exact this
          rw [writeFaceNormals_not_contains fnormal pts rest v d hnone]
          exact triple_set_getD ns f _ v d hv hcont
      | j' + 1 =>
          simp only [List.getD_cons_succ] at hcont ⊢
          rw [writeFaceNormals]
          refine ih j' _ (by simp [hv]) (by simpa using Nat.lt_of_succ_lt_succ hj)
            hcont ?_
          intro k hk1 hk2
          have := hlater (k + 1) (by omega) (by simpa using Nat.succ_lt_succ hk2)
          rwa [List.getD_cons_succ] at this

/-- **C5** — `setFaceNormal` resizes the normals sequence to the number
of positions, sets `normalFaces` equal to `positionFaces`, and assigns
each face's flat normal to all three of its vertices' normal slots in
face insertion order, so the final normal of a (valid) vertex incident to
several faces equals the flat normal of the last-processed incident face
(last writer wins). -/
theorem setFaceNormal_spec (fnormal : V3 → V3 → V3 → V3) (m : Mesh) :
    (m.setFaceNormal fnormal).normals.length = m.points.length ∧
    (m.setFaceNormal fnormal).normalIndices = m.pointIndices ∧
    (∀ v j, v < m.points.length →
      j < m.pointIndices.length →
      faceContains (m.pointIndices.getD j (0, 0, 0)) v →
      (∀ k, j < k → k < m.pointIndices.length →
        ¬ faceContains (m.pointIndices.getD k (0, 0, 0)) v) →
      (m.setFaceNormal fnormal).normals.getD v vzero =
        m.flatNormal fnormal (m.pointIndices.getD j (0, 0, 0))) := by
  refine ⟨?_, rfl, ?_⟩
  · show (writeFaceNormals fnormal m.points m.pointIndices
      (listResize m.normals m.points.length vzero)).length = m.points.length
    rw [writeFaceNormals_length, listResize_length]
  · intro v j hv hj hcont hlater
    exact writeFaceNormals_last_writer fnormal m.points m.pointIndices v vzero j
      (listResize m.normals m.points.length vzero)
      (by rw [listResize_length]; exact hv) hj hcont hlater

/-- A two-face mesh sharing vertex `1`: faces `(0,1,2)` and `(1,2,3)`. -/
def wMesh2 : Mesh :=
  ⟨[(0, 0, 0), (1, 0, 0), (0, 1, 0), (0, 0, 1)], [], [],
   [(0, 1, 2), (1, 2, 3)], [], [], []⟩

/-- A flat-normal capability distinguishing faces by their first vertex. -/
def wfn2 : V3 → V3 → V3 → V3 := fun p _ _ => p

theorem setFaceNormal_spec_witness :
    1 < wMesh2.points.length ∧ 1 < wMesh2.pointIndices.length ∧
    faceContains (wMesh2.pointIndices.getD 1 (0, 0, 0)) 1 ∧
    (∀ k, 1 < k → k < wMesh2.pointIndices.length →
      ¬ faceContains (wMesh2.pointIndices.getD k (0, 0, 0)) 1) ∧
    ((wMesh2.setFaceNormal wfn2).normals.length = wMesh2.points.length ∧
     (wMesh2.setFaceNormal wfn2).normalIndices = wMesh2.pointIndices) ∧
    (wMesh2.setFaceNormal wfn2).normals.getD 1 vzero =
      wMesh2.flatNormal wfn2 (wMesh2.pointIndices.getD 1 (0, 0, 0)) := by
  have hnolater : ∀ k, 1 < k → k < wMesh2.pointIndices.length →
      ¬ faceContains (wMesh2.pointIndices.getD k (0, 0, 0)) 1 := by
    intro k hk1 hk2
    simp only [wMesh2, List.length_cons, List.length_nil] at hk2
    omega
  exact ⟨by decide, by decide, by decide, hnolater,
    ⟨(setFaceNormal_spec wfn2 wMesh2).1, (setFaceNormal_spec wfn2 wMesh2).2.1⟩,
    (setFaceNormal_spec wfn2 wMesh2).2.2 1 1 (by decide) (by decide)
      (by decide) hnolater⟩

/-! ### Angle-weighted pseudo-normals (`setAngleWeightedVertexNormal`) -/

/-- Componentwise division of a vector by a scalar (`operator/=`). -/
def vdiv (a : V3) (c : ℚ) : V3 := (a.1 / c, a.2.1 / c, a.2.2 / c)

/-- Modelled from the spec: `jet::clamp(val, low, high)` from the
repository's math utilities (not under `src/`) — "`acos(clamp(dot, -1,
1))` (clamped to guard floating-point overshoot outside [-1,1])": returns
`low` below `low`, `high` above `high`, and the value itself otherwise. -/
def clamp (val low high : ℚ) : ℚ :=
  if val < low then low else if val > high then high else val

/-- The clamped cosine `clamp(e0.dot(e1), -1, 1)` fed to `acos` at the
corner `a` of a face `(a, b, c)`, with `e0 = b - a`, `e1 = c - a` both
normalized by the external capability `nrm`. -/
def cornerCos (nrm : V3 → V3) (a b c : V3) : ℚ :=
  clamp (vdot (nrm (vsub b a)) (nrm (vsub c a))) (-1) 1

/-- The corner normal `(e0 × e1).normalize()` at corner `a`. -/
def cornerNormal (nrm : V3 → V3) (a b c : V3) : V3 :=
  nrm (vcross (nrm (vsub b a)) (nrm (vsub c a)))

/-- One corner's accumulation step: add `angle` to the vertex's angle
weight and `angle * normal` to its pseudo-normal, where
`angle = acos(clamp(dot, -1, 1))` via the external `acos` capability
`ac`. -/
def accCorner (ac : ℚ → ℚ) (nrm : V3 → V3) (s : List ℚ × List V3)
    (idx : ℕ) (a b c : V3) : List ℚ × List V3 :=
  let angle := ac (cornerCos nrm a b c)
  (s.1.set idx (s.1.getD idx 0 + angle),
   s.2.set idx (vadd (s.2.getD idx vzero)
     (vsmul angle (cornerNormal nrm a b c))))

/-- One face's accumulation: the three corner updates of the
`setAngleWeightedVertexNormal` loop body, in source order. -/
def accFace (ac : ℚ → ℚ) (nrm : V3 → V3) (pts : List V3)
    (s : List ℚ × List V3) (f : I3) : List ℚ × List V3 :=
  let p0 := pts.getD f.1 vzero
  let p1 := pts.getD f.2.1 vzero
  let p2 := pts.getD f.2.2 vzero
  let s0 := accCorner ac nrm s f.1 p0 p1 p2
  let s1 := accCorner ac nrm s0 f.2.1 p1 p2 p0
  accCorner ac nrm s1 f.2.2 p2 p0 p1

/-- The accumulated `(angleWeights, pseudoNormals)` pair after the face
loop of `setAngleWeightedVertexNormal`, starting from all-zero arrays of
length `_points.size()`. -/
def Mesh.angleWeightsAcc (ac : ℚ → ℚ) (nrm : V3 → V3) (m : Mesh) :
    List ℚ × List V3 :=
  m.pointIndices.foldl (accFace ac nrm m.points)
    (List.replicate m.points.length 0, List.replicate m.points.length vzero)

/-- `TriangleMesh3::setAngleWeightedVertexNormal`: accumulate
angle-weighted corner normals per vertex, then divide each vertex's
accumulated vector by its accumulated angle — only when that angle sum is
strictly positive — and set `_normalIndices` to `_pointIndices`. -/
def Mesh.setAngleWeightedVertexNormal (ac : ℚ → ℚ) (nrm : V3 → V3)
    (m : Mesh) : Mesh :=
  let s := m.angleWeightsAcc ac nrm
  { m with
    normals := (List.range m.points.length).map (fun i =>
      if 0 < s.1.getD i 0 then vdiv (s.2.getD i vzero) (s.1.getD i 0)
      else s.2.getD i vzero),
    normalIndices := m.pointIndices }

/-- All arguments the algorithm feeds to the external `acos` capability:
the three clamped corner cosines of every face, in scan order. -/
def Mesh.acosArgs (nrm : V3 → V3) (m : Mesh) : List ℚ :=
  m.pointIndices.flatMap (fun f =>
    let p0 := m.points.getD f.1 vzero
    let p1 := m.points.getD f.2.1 vzero
    let p2 := m.points.getD f.2.2 vzero
    [cornerCos nrm p0 p1 p2, cornerCos nrm p1 p2 p0, cornerCos nrm p2 p0 p1])

theorem clamp_le_bounds (val low high : ℚ) (h : low ≤ high) :
    low ≤ clamp val low high ∧ clamp val low high ≤ high := by
  unfold clamp
  split_ifs with h1 h2
  · exact ⟨le_refl low, h⟩
  · exact ⟨h, le_refl high⟩
  · push_neg at h1 h2
    exact ⟨h1, h2⟩

theorem cornerCos_bounds (nrm : V3 → V3) (a b c : V3) :
    -1 ≤ cornerCos nrm a b c ∧ cornerCos nrm a b c ≤ 1 :=
  clamp_le_bounds _ _ _ (by norm_num)

theorem getD_set_eq {α : Type} (l : List α) (i : ℕ) (x d : α) :
    (l.set i x).getD i d = if i < l.length then x else d := by
  by_cases h : i < l.length
  · rw [if_pos h]
    exact getD_set_self l i x d h
  · rw [if_neg h]
    push_neg at h
    rw [List.set_eq_of_length_le h]
    simp [List.getD_eq_getElem?_getD, List.getElem?_eq_none h]

/-- The accumulation invariant: the two arrays stay the same length,
every angle weight is nonnegative, and a vertex whose weight is zero has
the zero pseudo-normal. -/
def accInv (s : List ℚ × List V3) : Prop :=
  s.1.length = s.2.length ∧
  ∀ v, 0 ≤ s.1.getD v 0 ∧ (s.1.getD v 0 = 0 → s.2.getD v vzero = vzero)

theorem vsmul_zero_vec (n : V3) : vsmul 0 n = vzero := by
  simp [vsmul, vzero]

theorem vadd_vzero_left (a : V3) : vadd vzero a = a := by
  simp [vadd, vzero]

theorem accCorner_inv (ac : ℚ → ℚ) (nrm : V3 → V3) (s : List ℚ × List V3)
    (idx : ℕ) (a b c : V3)
    (hangle : 0 ≤ ac (cornerCos nrm a b c)) (hs : accInv s) :
    accInv (accCorner ac nrm s idx a b c) := by
  obtain ⟨hlen, hinv⟩ := hs
  refine ⟨by simp [accCorner, hlen], ?_⟩
  intro v
  show 0 ≤ (s.1.set idx (s.1.getD idx 0 + ac (cornerCos nrm a b c))).getD v 0 ∧
    ((s.1.set idx (s.1.getD idx 0 + ac (cornerCos nrm a b c))).getD v 0 = 0 →
      (s.2.set idx (vadd (s.2.getD idx vzero)
        (vsmul (ac (cornerCos nrm a b c))
          (cornerNormal nrm a b c)))).getD v vzero = vzero)
  by_cases hv : idx = v
  · subst hv
    rw [getD_set_eq, getD_set_eq, ← hlen]
    by_cases h : idx < s.1.length
    · rw [if_pos h, if_pos h]
      constructor
      · have := (hinv idx).1
        linarith
      · intro hzero
        have hw0 : s.1.getD idx 0 = 0 := by
          have := (hinv idx).1
          linarith
        have ha0 : ac (cornerCos nrm a b c) = 0 := by linarith
        rw [(hinv idx).2 hw0, ha0, vsmul_zero_vec, vadd_vzero_left]
    · rw [if_neg h, if_neg h]
      exact ⟨le_refl 0, fun _ => rfl⟩
  · rw [getD_set_ne _ _ _ _ _ hv, getD_set_ne _ _ _ _ _ hv]
    exact hinv v

theorem accFace_inv (ac : ℚ → ℚ) (nrm : V3 → V3) (pts : List V3)
    (hac : ∀ x : ℚ, -1 ≤ x → x ≤ 1 → 0 ≤ ac x)
    (s : List ℚ × List V3) (f : I3) (hs : accInv s) :
    accInv (accFace ac nrm pts s f) := by
  have hangle : ∀ a b c : V3, 0 ≤ ac (cornerCos nrm a b c) := fun a b c =>
    hac _ (cornerCos_bounds nrm a b c).1 (cornerCos_bounds nrm a b c).2
  exact accCorner_inv ac nrm _ _ _ _ _ (hangle _ _ _)
    (accCorner_inv ac nrm _ _ _ _ _ (hangle _ _ _)
      (accCorner_inv ac nrm _ _ _ _ _ (hangle _ _ _) hs))

theorem foldl_accFace_inv (ac : ℚ → ℚ) (nrm : V3 → V3) (pts : List V3)
    (hac : ∀ x : ℚ, -1 ≤ x → x ≤ 1 → 0 ≤ ac x) (faces : List I3) :
    ∀ s : List ℚ × List V3, accInv s →
    accInv (faces.foldl (accFace ac nrm pts) s) := by
  induction faces with
  | nil => intro s hs; exact hs
  | cons f rest ih =>
      intro s hs
      rw [List.foldl_cons]
      exact ih _ (accFace_inv ac nrm pts hac s f hs)

theorem getD_replicate_self {α : Type} (n v : ℕ) (a : α) :
    (List.replicate n a).getD v a = a := by
  induction n generalizing v with
  | zero => cases v <;> rfl
  | succ n ih =>
      cases v with
      | zero => rfl
      | succ v => exact ih v

theorem angleWeightsAcc_inv (ac : ℚ → ℚ) (nrm : V3 → V3) (m : Mesh)
    (hac : ∀ x : ℚ, -1 ≤ x → x ≤ 1 → 0 ≤ ac x) :
    accInv (m.angleWeightsAcc ac nrm) := by
  refine foldl_accFace_inv ac nrm m.points hac m.pointIndices _ ⟨by simp, ?_⟩
  intro v
  rw [getD_replicate_self, getD_replicate_self]
  exact ⟨le_refl 0, fun _ => rfl⟩

/-- **C6** — In `setAngleWeightedVertexNormal`, every value fed to `acos`
is `clamp(dot, -1, 1)` and hence lies in `[-1, 1]`; the per-vertex
division of the accumulated weighted-normal vector by the accumulated
angle sum is performed only when that sum is strictly positive; and a
vertex whose accumulated angle is zero keeps the zero vector as its
normal (assuming, as for the real `acos`, that the external capability is
nonnegative on `[-1, 1]`). -/
theorem setAngleWeightedVertexNormal_spec (ac : ℚ → ℚ) (nrm : V3 → V3)
    (m : Mesh) (hac : ∀ x : ℚ, -1 ≤ x → x ≤ 1 → 0 ≤ ac x) :
    (∀ c ∈ m.acosArgs nrm, -1 ≤ c ∧ c ≤ 1) ∧
    (∀ v, v < m.points.length →
      (m.setAngleWeightedVertexNormal ac nrm).normals.getD v vzero =
        (if 0 < (m.angleWeightsAcc ac nrm).1.getD v 0 then
          vdiv ((m.angleWeightsAcc ac nrm).2.getD v vzero)
            ((m.angleWeightsAcc ac nrm).1.getD v 0)
        else (m.angleWeightsAcc ac nrm).2.getD v vzero)) ∧
    (∀ v, v < m.points.length →
      (m.angleWeightsAcc ac nrm).1.getD v 0 = 0 →
      (m.setAngleWeightedVertexNormal ac nrm).normals.getD v vzero = vzero) := by
  have hmap : ∀ v, v < m.points.length →
      (m.setAngleWeightedVertexNormal ac nrm).normals.getD v vzero =
        (if 0 < (m.angleWeightsAcc ac nrm).1.getD v 0 then
          vdiv ((m.angleWeightsAcc ac nrm).2.getD v vzero)
            ((m.angleWeightsAcc ac nrm).1.getD v 0)
        else (m.angleWeightsAcc ac nrm).2.getD v vzero) := by
    intro v hv
    show ((List.range m.points.length).map _).getD v vzero = _
    rw [getD_map_range _ _ _ hv _]
  refine ⟨?_, hmap, ?_⟩
  · intro c hc
    rw [Mesh.acosArgs] at hc
    rcases List.mem_flatMap.mp hc with ⟨f, _, hcf⟩
    simp only [List.mem_cons, List.mem_singleton] at hcf
    rcases hcf with h | h | h | h
    · exact h ▸ cornerCos_bounds nrm _ _ _
    · exact h ▸ cornerCos_bounds nrm _ _ _
    · exact h ▸ cornerCos_bounds nrm _ _ _
    · exact absurd h (List.not_mem_nil c)
  · intro v hv hzero
    rw [hmap v hv, if_neg (by rw [hzero]; exact lt_irrefl 0)]
    exact ((angleWeightsAcc_inv ac nrm m hac).2 v).2 hzero

/-- Concrete `acos` and `normalize` capabilities for the witness. -/
def wac : ℚ → ℚ := fun _ => 0

def wnrm : V3 → V3 := fun v => v

theorem setAngleWeightedVertexNormal_spec_witness :
    (∀ x : ℚ, -1 ≤ x → x ≤ 1 → 0 ≤ wac x) ∧
    (∀ c ∈ wMesh1.acosArgs wnrm, -1 ≤ c ∧ c ≤ 1) ∧
    (0 < wMesh1.points.length ∧
      (wMesh1.angleWeightsAcc wac wnrm).1.getD 0 0 = 0 ∧
      (wMesh1.setAngleWeightedVertexNormal wac wnrm).normals.getD 0 vzero =
        vzero) := by
  have hac : ∀ x : ℚ, -1 ≤ x → x ≤ 1 → 0 ≤ wac x := fun x _ _ => le_refl 0
  have hw0 : (wMesh1.angleWeightsAcc wac wnrm).1.getD 0 0 = 0 := by
    show (0 : ℚ) + 0 = 0
    norm_num
  exact ⟨hac,
    (setAngleWeightedVertexNormal_spec wac wnrm wMesh1 hac).1,
    by decide, hw0,
    (setAngleWeightedVertexNormal_spec wac wnrm wMesh1 hac).2.2 0
      (by decide) hw0⟩

/-! ### Face-append operations and the mixed-attribute invariant -/

/-- The five face-append operations: `addPointFace`,
`addPointNormalFace`, `addPointNormalUvFace`, `addPointUvFace`, and
`addTriangle`. -/
inductive FaceOp : Type
  | pointFace (f : I3)
  | pointNormalFace (f nf : I3)
  | pointNormalUvFace (f nf uf : I3)
  | pointUvFace (f uf : I3)
  | triangleOp (t : Tri)
deriving DecidableEq, Repr

/-- The state change each face-append operation performs (`JET_ASSERT`
is a debug-only check and never blocks the appends). -/
def applyFaceOp (m : Mesh) : FaceOp → Mesh
  | .pointFace f => { m with pointIndices := m.pointIndices ++ [f] }
  | .pointNormalFace f nf =>
      { m with pointIndices := m.pointIndices ++ [f],
               normalIndices := m.normalIndices ++ [nf] }
  | .pointNormalUvFace f nf uf =>
      { m with pointIndices := m.pointIndices ++ [f],
               normalIndices := m.normalIndices ++ [nf],
               uvIndices := m.uvIndices ++ [uf] }
  | .pointUvFace f uf =>
      { m with pointIndices := m.pointIndices ++ [f],
               uvIndices := m.uvIndices ++ [uf] }
  | .triangleOp t =>
      { m with
        points := m.points ++ [t.p0, t.p1, t.p2],
        normals := m.normals ++ [t.n0, t.n1, t.n2],
        uvs := m.uvs ++ [t.u0, t.u1, t.u2],
        pointIndices := m.pointIndices ++
          [(m.points.length, m.points.length + 1, m.points.length + 2)],
        normalIndices := m.normalIndices ++
          [(m.normals.length, m.normals.length + 1, m.normals.length + 2)],
        uvIndices := m.uvIndices ++
          [(m.uvs.length, m.uvs.length + 1, m.uvs.length + 2)] }

def applyFaceOps (m : Mesh) (ops : List FaceOp) : Mesh :=
  ops.foldl applyFaceOp m

/-- Does the operation append a normal-index triple? -/
def opHasNormal : FaceOp → Bool
  | .pointNormalFace _ _ => true
  | .pointNormalUvFace _ _ _ => true
  | .triangleOp _ => true
  | _ => false

/-- Does the operation append a uv-index triple? -/
def opHasUv : FaceOp → Bool
  | .pointNormalUvFace _ _ _ => true
  | .pointUvFace _ _ => true
  | .triangleOp _ => true
  | _ => false

/-- The `JET_ASSERT` precondition each operation states, exactly as
written in the code — note that `addPointNormalUvFace` and
`addPointUvFace` compare the face count against `_uvs.size()`, the uv
attribute count, not the uv index count. -/
def opAssert (m : Mesh) : FaceOp → Prop
  | .pointNormalFace _ _ =>
      m.pointIndices.length = m.normalIndices.length
  | .pointNormalUvFace _ _ _ =>
      m.pointIndices.length = m.normalIndices.length ∧
      m.pointIndices.length = m.uvs.length
  | .pointUvFace _ _ => m.pointIndices.length = m.uvs.length
  | _ => True

instance (m : Mesh) (op : FaceOp) : Decidable (opAssert m op) := by
  cases op <;> (unfold opAssert; infer_instance)

/-- Only the normal-related half of the asserted preconditions. -/
def opNormalAssert (m : Mesh) : FaceOp → Prop
  | .pointNormalFace _ _ =>
      m.pointIndices.length = m.normalIndices.length
  | .pointNormalUvFace _ _ _ =>
      m.pointIndices.length = m.normalIndices.length
  | _ => True

/-- All asserted preconditions hold along the execution of `ops` from
`m0`. -/
def assertsHold (m0 : Mesh) (ops : List FaceOp) : Prop :=
  ∀ k, k < ops.length →
    opAssert (applyFaceOps m0 (ops.take k)) (ops.getD k (.pointFace (0, 0, 0)))

instance (m0 : Mesh) (ops : List FaceOp) : Decidable (assertsHold m0 ops) := by
  unfold assertsHold
  exact Nat.decidableBallLT _ _

/-- The spec's mixed-attribute invariant: a non-empty `normalFaces`
(resp. `uvFaces`) has the same length as `positionFaces`. -/
def mixedInv (m : Mesh) : Prop :=
  (m.normalIndices ≠ [] →
    m.normalIndices.length = m.pointIndices.length) ∧
  (m.uvIndices ≠ [] → m.uvIndices.length = m.pointIndices.length)

instance (m : Mesh) : Decidable (mixedInv m) := by
  unfold mixedInv
  infer_instance

theorem applyFaceOps_pointIndices_length (ops : List FaceOp) :
    ∀ m0 : Mesh, (applyFaceOps m0 ops).pointIndices.length =
      m0.pointIndices.length + ops.length := by
  induction ops with
  | nil => intro m0; simp [applyFaceOps]
  | cons op rest ih =>
      intro m0
      show (applyFaceOps (applyFaceOp m0 op) rest).pointIndices.length = _
      rw [ih]
      cases op <;> simp [applyFaceOp] <;> omega

theorem applyFaceOps_normalIndices_length (ops : List FaceOp) :
    ∀ m0 : Mesh, (applyFaceOps m0 ops).normalIndices.length =
      m0.normalIndices.length + ops.countP opHasNormal := by
  induction ops with
  | nil => intro m0; simp [applyFaceOps]
  | cons op rest ih =>
      intro m0
      show (applyFaceOps (applyFaceOp m0 op) rest).normalIndices.length = _
      rw [ih, List.countP_cons]
      cases op <;> simp [applyFaceOp, opHasNormal] <;> omega

theorem applyFaceOps_uvIndices_length (ops : List FaceOp) :
    ∀ m0 : Mesh, (applyFaceOps m0 ops).uvIndices.length =
      m0.uvIndices.length + ops.countP opHasUv := by
  induction ops with
  | nil => intro m0; simp [applyFaceOps]
  | cons op rest ih =>
      intro m0
      show (applyFaceOps (applyFaceOp m0 op) rest).uvIndices.length = _
      rw [ih, List.countP_cons]
      cases op <;> simp [applyFaceOp, opHasUv] <;> omega

theorem applyFaceOps_normalIndices_of_none (ops : List FaceOp)
    (h : ∀ op ∈ ops, opHasNormal op = false) :
    ∀ m0 : Mesh, (applyFaceOps m0 ops).normalIndices = m0.normalIndices := by
  induction ops with
  | nil => intro m0; rfl
  | cons op rest ih =>
      intro m0
      show (applyFaceOps (applyFaceOp m0 op) rest).normalIndices = _
      rw [ih (fun g hg => h g (List.mem_cons_of_mem op hg))]
      have hop := h op (List.mem_cons_self op rest)
      cases op <;> simp [applyFaceOp] <;> simp [opHasNormal] at hop

theorem applyFaceOps_uvIndices_of_none (ops : List FaceOp)
    (h : ∀ op ∈ ops, opHasUv op = false) :
    ∀ m0 : Mesh, (applyFaceOps m0 ops).uvIndices = m0.uvIndices := by
  induction ops with
  | nil => intro m0; rfl
  | cons op rest ih =>
      intro m0
      show (applyFaceOps (applyFaceOp m0 op) rest).uvIndices = _
      rw [ih (fun g hg => h g (List.mem_cons_of_mem op hg))]
      have hop := h op (List.mem_cons_self op rest)
      cases op <;> simp [applyFaceOp] <;> simp [opHasUv] at hop

/-- **C7 counterexample** — the claim fails on the code at two concrete
inputs: (a) the mixed sequence `addPointNormalFace; addPointFace` from an
empty mesh leaves `normalFaces` non-empty with length 1 while
`positionFaces` has length 2 (and no executed assert fires); (b) the
homogeneous sequence `addPointUvFace; addPointUvFace` violates the
asserted precondition at its second call, because the code asserts
`_pointIndices.size() == _uvs.size()` — against the uv attribute
sequence, which face appends never grow. -/
theorem faceAppend_invariant_counterexample :
    (¬ mixedInv (applyFaceOps emptyMesh
      [.pointNormalFace (0, 0, 0) (0, 0, 0), .pointFace (0, 0, 0)])) ∧
    (assertsHold emptyMesh
      [.pointNormalFace (0, 0, 0) (0, 0, 0), .pointFace (0, 0, 0)]) ∧
    (¬ assertsHold emptyMesh
      [.pointUvFace (0, 0, 0) (0, 0, 0), .pointUvFace (0, 0, 0) (0, 0, 0)]) ∧
    mixedInv (applyFaceOps emptyMesh
      [.pointUvFace (0, 0, 0) (0, 0, 0), .pointUvFace (0, 0, 0) (0, 0, 0)]) := by
  refine ⟨by decide, by decide, ?_, by decide⟩
  intro hcon
  have := hcon 1 (by decide)
  revert this
  decide

theorem opNormalAssert_of_eq (m : Mesh) (op : FaceOp)
    (h : m.pointIndices.length = m.normalIndices.length) :
    opNormalAssert m op := by
  cases op <;> first | exact h | trivial

theorem opNormalAssert_of_not_normal (m : Mesh) (op : FaceOp)
    (h : opHasNormal op = false) : opNormalAssert m op := by
  cases op <;> trivial

/-- **C7 amended** — After any sequence of face-append calls in which the
normal-carrying operations are either all of the calls or none of them
(and likewise the uv-carrying operations), starting from an empty mesh:
a non-empty `normalFaces` (resp. `uvFaces`) has the same length as
`positionFaces`, and the normal-index length-match precondition asserted
by `addPointNormalFace`/`addPointNormalUvFace` holds at every call.  (The
asserted uv precondition compares against the uv *attribute* count and is
not maintained, and mixing carrying with non-carrying variants breaks the
invariant — see the counterexample.) -/
theorem faceAppend_invariant_amended (ops : List FaceOp)
    (hN : (∀ op ∈ ops, opHasNormal op = true) ∨
      (∀ op ∈ ops, opHasNormal op = false))
    (hU : (∀ op ∈ ops, opHasUv op = true) ∨
      (∀ op ∈ ops, opHasUv op = false)) :
    mixedInv (applyFaceOps emptyMesh ops) ∧
    (∀ k, k < ops.length →
      opNormalAssert (applyFaceOps emptyMesh (ops.take k))
        (ops.getD k (.pointFace (0, 0, 0)))) := by
  constructor
  · constructor
    · rcases hN with hall | hnone
      · intro _
        rw [applyFaceOps_normalIndices_length,
          applyFaceOps_pointIndices_length, List.countP_eq_length.mpr hall]
        rfl
      · intro hne
        exact absurd (applyFaceOps_normalIndices_of_none ops hnone emptyMesh) hne
    · rcases hU with hall | hnone
      · intro _
        rw [applyFaceOps_uvIndices_length,
          applyFaceOps_pointIndices_length, List.countP_eq_length.mpr hall]
        rfl
      · intro hne
        exact absurd (applyFaceOps_uvIndices_of_none ops hnone emptyMesh) hne
  · intro k hk
    rcases hN with hall | hnone
    · refine opNormalAssert_of_eq _ _ ?_
      rw [applyFaceOps_normalIndices_length, applyFaceOps_pointIndices_length,
        List.countP_eq_length.mpr
          (fun op hop => hall op (List.mem_of_mem_take hop))]
      rfl
    · refine opNormalAssert_of_not_normal _ _ ?_
      refine hnone _ ?_
      rw [List.getD_eq_getElem _ _ hk]
      exact List.getElem_mem hk

theorem faceAppend_invariant_amended_witness :
    ((∀ op ∈ ([.pointNormalFace (0, 1, 2) (0, 1, 2),
        .pointNormalFace (3, 4, 5) (3, 4, 5)] : List FaceOp),
      opHasNormal op = true) ∨
     (∀ op ∈ ([.pointNormalFace (0, 1, 2) (0, 1, 2),
        .pointNormalFace (3, 4, 5) (3, 4, 5)] : List FaceOp),
      opHasNormal op = false)) ∧
    ((∀ op ∈ ([.pointNormalFace (0, 1, 2) (0, 1, 2),
        .pointNormalFace (3, 4, 5) (3, 4, 5)] : List FaceOp),
      opHasUv op = true) ∨
     (∀ op ∈ ([.pointNormalFace (0, 1, 2) (0, 1, 2),
        .pointNormalFace (3, 4, 5) (3, 4, 5)] : List FaceOp),
      opHasUv op = false)) ∧
    (mixedInv (applyFaceOps emptyMesh
      [.pointNormalFace (0, 1, 2) (0, 1, 2),
       .pointNormalFace (3, 4, 5) (3, 4, 5)]) ∧
     (∀ k, k < ([.pointNormalFace (0, 1, 2) (0, 1, 2),
        .pointNormalFace (3, 4, 5) (3, 4, 5)] : List FaceOp).length →
      opNormalAssert (applyFaceOps emptyMesh
        (([.pointNormalFace (0, 1, 2) (0, 1, 2),
          .pointNormalFace (3, 4, 5) (3, 4, 5)] : List FaceOp).take k))
        (([.pointNormalFace (0, 1, 2) (0, 1, 2),
          .pointNormalFace (3, 4, 5) (3, 4, 5)] : List FaceOp).getD k
          (.pointFace (0, 0, 0))))) :=
  ⟨Or.inl (by decide), Or.inr (by decide),
    faceAppend_invariant_amended _ (Or.inl (by decide)) (Or.inr (by decide))⟩

/-! ### OBJ output (`writeObj`) -/

/-- The stream insertion `strm << v` overloaded for `Vector3D` at the top
of the source file: the three components separated by single spaces,
each formatted by the external double-to-text capability `fm`. -/
def showV3 (fm : ℚ → String) (v : V3) : String :=
  fm v.1 ++ " " ++ fm v.2.1 ++ " " ++ fm v.2.2

/-- The stream insertion for `Vector2D`: two components separated by a
space. -/
def showV2 (fm : ℚ → String) (v : V2) : String :=
  fm v.1 ++ " " ++ fm v.2

/-- One vertex entry of a face line, mirroring the inner loop of
`writeObj`: the 1-based position index; `'/'` when the mesh has normals
or uvs; the 1-based uv index when the mesh has uvs; `'/'` and the
1-based normal index when the mesh has normals; then a space. -/
def faceVertexEntry (hasUvs hasNormals : Bool) (pIdx uIdx nIdx : ℕ) :
    String :=
  toString (pIdx + 1) ++
  (if hasNormals || hasUvs then "/" else "") ++
  (if hasUvs then toString (uIdx + 1) else "") ++
  (if hasNormals then "/" ++ toString (nIdx + 1) else "") ++ " "

/-- `TriangleMesh3::writeObj` as the list of emitted lines: one `v` line
per position, then one `vt` line per uv, then one `vn` line per normal,
then one `f` line per face with three vertex entries in declaration
order. -/
def Mesh.writeObj (fm : ℚ → String) (m : Mesh) : List String :=
  m.points.map (fun pt => "v " ++ showV3 fm pt) ++
  m.uvs.map (fun uv => "vt " ++ showV2 fm uv) ++
  m.normals.map (fun n => "vn " ++ showV3 fm n) ++
  (List.range m.numberOfFaces).map (fun i =>
    "f " ++
    faceVertexEntry m.hasUvs m.hasNormals (m.pointIndices.getD i (0, 0, 0)).1
      (m.uvIndices.getD i (0, 0, 0)).1 (m.normalIndices.getD i (0, 0, 0)).1 ++
    faceVertexEntry m.hasUvs m.hasNormals
      (m.pointIndices.getD i (0, 0, 0)).2.1
      (m.uvIndices.getD i (0, 0, 0)).2.1
      (m.normalIndices.getD i (0, 0, 0)).2.1 ++
    faceVertexEntry m.hasUvs m.hasNormals
      (m.pointIndices.getD i (0, 0, 0)).2.2
      (m.uvIndices.getD i (0, 0, 0)).2.2
      (m.normalIndices.getD i (0, 0, 0)).2.2)

/-- The four standard OBJ face-vertex entry forms — `p`, `p/t`, `p//n`,
`p/t/n`, 1-based, space-terminated — stated independently of the
source's conditional structure. -/
def objEntryForm (hasUvs hasNormals : Bool) (pIdx uIdx nIdx : ℕ) : String :=
  (match hasUvs, hasNormals with
   | false, false => toString (pIdx + 1)
   | true, false => toString (pIdx + 1) ++ "/" ++ toString (uIdx + 1)
   | false, true => toString (pIdx + 1) ++ "//" ++ toString (nIdx + 1)
   | true, true => toString (pIdx + 1) ++ "/" ++ toString (uIdx + 1) ++
       "/" ++ toString (nIdx + 1)) ++ " "

theorem slash_slash (x : String) : "/" ++ ("/" ++ x) = "//" ++ x := by
  rw [← String.append_assoc]
  rfl

theorem faceVertexEntry_eq_objEntryForm (hasUvs hasNormals : Bool)
    (pIdx uIdx nIdx : ℕ) :
    faceVertexEntry hasUvs hasNormals pIdx uIdx nIdx =
      objEntryForm hasUvs hasNormals pIdx uIdx nIdx := by
  cases hasUvs <;> cases hasNormals <;>
    simp [faceVertexEntry, objEntryForm, String.append_assoc, slash_slash]

/-- **C8** — `writeObj` emits, in order, one `v x y z` line per position,
one `vt u v` line per uv, one `vn x y z` line per normal, then one face
line per face; within a face line the three vertex entries follow
declaration order, indices are 1-based, and each entry takes the standard
form `p`, `p/t`, `p//n`, or `p/t/n` according to whether the mesh has
uvs and/or normals. -/
theorem writeObj_spec (fm : ℚ → String) (m : Mesh) :
    m.writeObj fm =
      m.points.map (fun pt => "v " ++ showV3 fm pt) ++
      m.uvs.map (fun uv => "vt " ++ showV2 fm uv) ++
      m.normals.map (fun n => "vn " ++ showV3 fm n) ++
      (List.range m.numberOfFaces).map (fun i =>
        "f " ++
        objEntryForm m.hasUvs m.hasNormals
          (m.pointIndices.getD i (0, 0, 0)).1
          (m.uvIndices.getD i (0, 0, 0)).1
          (m.normalIndices.getD i (0, 0, 0)).1 ++
        objEntryForm m.hasUvs m.hasNormals
          (m.pointIndices.getD i (0, 0, 0)).2.1
          (m.uvIndices.getD i (0, 0, 0)).2.1
          (m.normalIndices.getD i (0, 0, 0)).2.1 ++
        objEntryForm m.hasUvs m.hasNormals
          (m.pointIndices.getD i (0, 0, 0)).2.2
          (m.uvIndices.getD i (0, 0, 0)).2.2
          (m.normalIndices.getD i (0, 0, 0)).2.2) := by
  unfold Mesh.writeObj
  simp only [faceVertexEntry_eq_objEntryForm]

/-! ### OBJ input (`readObj`) -/

/-- The events the external OBJ push parser delivers to the callbacks
`readObj` registers.  Triangular faces come in four shapes carrying
1-based indices (the parser is configured to translate negative
indices); quadrilateral and polygonal face events and the
group/smoothing/object/material/comment events are accepted by the
registered callbacks, whose bodies are empty. -/
inductive ObjEvent : Type
  | geomVertex (x y z : ℚ)
  | texVertex (u v : ℚ)
  | vertexNormal (x y z : ℚ)
  | triFaceP (v0 v1 v2 : ℕ)
  | triFacePT (v0 t0 v1 t1 v2 t2 : ℕ)
  | triFacePN (v0 n0 v1 n1 v2 n2 : ℕ)
  | triFacePTN (v0 t0 n0 v1 t1 n1 v2 t2 n2 : ℕ)
  | quadFace (v0 v1 v2 v3 : ℕ)
  | polyFaceVertex (v0 : ℕ)
  | miscEvent
deriving DecidableEq, Repr

/-- The callback bodies of `readObj`: vertex/uv/normal events append to
the matching attribute sequence; each triangular face event appends the
index triple(s) with every 1-based index decremented; all other events
do nothing.  Note the position+uv+normal case: the source's callback
for `(v, vt, vn)` tuples calls `addPointNormalUvFace` with
`std::get<1>` of each tuple — the *texture* index — as
`newNormalIndices`, and `std::get<2>` — the *normal* index — as
`newUvIndices`, so the texture triple lands in `_normalIndices` and the
normal triple in `_uvIndices`; the embedding reproduces that argument
order. -/
def applyObjEvent (m : Mesh) : ObjEvent → Mesh
  | .geomVertex x y z => { m with points := m.points ++ [(x, y, z)] }
  | .texVertex u v => { m with uvs := m.uvs ++ [(u, v)] }
  | .vertexNormal x y z => { m with normals := m.normals ++ [(x, y, z)] }
  | .triFaceP v0 v1 v2 =>
      applyFaceOp m (.pointFace (v0 - 1, v1 - 1, v2 - 1))
  | .triFacePT v0 t0 v1 t1 v2 t2 =>
      applyFaceOp m (.pointUvFace (v0 - 1, v1 - 1, v2 - 1)
        (t0 - 1, t1 - 1, t2 - 1))
  | .triFacePN v0 n0 v1 n1 v2 n2 =>
      applyFaceOp m (.pointNormalFace (v0 - 1, v1 - 1, v2 - 1)
        (n0 - 1, n1 - 1, n2 - 1))
  | .triFacePTN v0 t0 n0 v1 t1 n1 v2 t2 n2 =>
      applyFaceOp m (.pointNormalUvFace (v0 - 1, v1 - 1, v2 - 1)
        (t0 - 1, t1 - 1, t2 - 1) (n0 - 1, n1 - 1, n2 - 1))
  | .quadFace _ _ _ _ => m
  | .polyFaceVertex _ => m
  | .miscEvent => m

/-- `TriangleMesh3::readObj`: run the decoder's event stream through the
callbacks and return the decoder's success boolean `ok` (the result of
`parser.parse`). -/
def Mesh.readObj (m : Mesh) (events : List ObjEvent) (ok : Bool) :
    Mesh × Bool :=
  (events.foldl applyObjEvent m, ok)

/-- The decremented position triple a triangular face event appends. -/
def triPosTriple : ObjEvent → Option I3
  | .triFaceP v0 v1 v2 => some (v0 - 1, v1 - 1, v2 - 1)
  | .triFacePT v0 _ v1 _ v2 _ => some (v0 - 1, v1 - 1, v2 - 1)
  | .triFacePN v0 _ v1 _ v2 _ => some (v0 - 1, v1 - 1, v2 - 1)
  | .triFacePTN v0 _ _ v1 _ _ v2 _ _ => some (v0 - 1, v1 - 1, v2 - 1)
  | _ => none

/-- The decremented *normal-kind* triple a triangular face event
carries: what the claim says gets appended to `normalFaces`. -/
def triNormalTriple : ObjEvent → Option I3
  | .triFacePN _ n0 _ n1 _ n2 => some (n0 - 1, n1 - 1, n2 - 1)
  | .triFacePTN _ _ n0 _ _ n1 _ _ n2 => some (n0 - 1, n1 - 1, n2 - 1)
  | _ => none

/-- The decremented *uv-kind* triple a triangular face event carries:
what the claim says gets appended to `uvFaces`. -/
def triUvTriple : ObjEvent → Option I3
  | .triFacePT _ t0 _ t1 _ t2 => some (t0 - 1, t1 - 1, t2 - 1)
  | .triFacePTN _ t0 _ _ t1 _ _ t2 _ => some (t0 - 1, t1 - 1, t2 - 1)
  | _ => none

/-- The decremented triple the code actually appends to
`_normalIndices`: for the position+uv+normal variant this is the
*texture* components, because the call site passes `std::get<1>` as
`newNormalIndices`. -/
def storedNormalTriple : ObjEvent → Option I3
  | .triFacePN _ n0 _ n1 _ n2 => some (n0 - 1, n1 - 1, n2 - 1)
  | .triFacePTN _ t0 _ _ t1 _ _ t2 _ => some (t0 - 1, t1 - 1, t2 - 1)
  | _ => none

/-- The decremented triple the code actually appends to `_uvIndices`:
for the position+uv+normal variant this is the *normal* components,
because the call site passes `std::get<2>` as `newUvIndices`. -/
def storedUvTriple : ObjEvent → Option I3
  | .triFacePT _ t0 _ t1 _ t2 => some (t0 - 1, t1 - 1, t2 - 1)
  | .triFacePTN _ _ n0 _ _ n1 _ _ n2 => some (n0 - 1, n1 - 1, n2 - 1)
  | _ => none

/-- What `readObj`'s callbacks actually build: one face per triangular
event, with `_normalIndices` and `_uvIndices` receiving the
`storedNormalTriple`/`storedUvTriple` of each event (the texture and
normal components trade places in the position+uv+normal variant), and
the decoder's success boolean returned as-is. -/
theorem applyObjEvent_foldl_faces (events : List ObjEvent) :
    ∀ m : Mesh,
      (events.foldl applyObjEvent m).pointIndices =
        m.pointIndices ++ events.filterMap triPosTriple ∧
      (events.foldl applyObjEvent m).normalIndices =
        m.normalIndices ++ events.filterMap storedNormalTriple ∧
      (events.foldl applyObjEvent m).uvIndices =
        m.uvIndices ++ events.filterMap storedUvTriple := by
  induction events with
  | nil => intro m; simp
  | cons e rest ih =>
      intro m
      rw [List.foldl_cons]
      cases e with
      | geomVertex x y z =>
          simpa [applyObjEvent, triPosTriple, storedNormalTriple,
            storedUvTriple, List.filterMap_cons] using
            ih { m with points := m.points ++ [(x, y, z)] }
      | texVertex u v =>
          simpa [applyObjEvent, triPosTriple, storedNormalTriple,
            storedUvTriple, List.filterMap_cons] using
            ih { m with uvs := m.uvs ++ [(u, v)] }
      | vertexNormal x y z =>
          simpa [applyObjEvent, triPosTriple, storedNormalTriple,
            storedUvTriple, List.filterMap_cons] using
            ih { m with normals := m.normals ++ [(x, y, z)] }
      | triFaceP v0 v1 v2 =>
          simpa [applyObjEvent, applyFaceOp, triPosTriple, storedNormalTriple,
            storedUvTriple, List.filterMap_cons, List.append_assoc] using
            ih { m with pointIndices :=
              m.pointIndices ++ [(v0 - 1, v1 - 1, v2 - 1)] }
      | triFacePT v0 t0 v1 t1 v2 t2 =>
          simpa [applyObjEvent, applyFaceOp, triPosTriple, storedNormalTriple,
            storedUvTriple, List.filterMap_cons, List.append_assoc] using
            ih { m with
              pointIndices := m.pointIndices ++ [(v0 - 1, v1 - 1, v2 - 1)],
              uvIndices := m.uvIndices ++ [(t0 - 1, t1 - 1, t2 - 1)] }
      | triFacePN v0 n0 v1 n1 v2 n2 =>
          simpa [applyObjEvent, applyFaceOp, triPosTriple, storedNormalTriple,
            storedUvTriple, List.filterMap_cons, List.append_assoc] using
            ih { m with
              pointIndices := m.pointIndices ++ [(v0 - 1, v1 - 1, v2 - 1)],
              normalIndices := m.normalIndices ++ [(n0 - 1, n1 - 1, n2 - 1)] }
      | triFacePTN v0 t0 n0 v1 t1 n1 v2 t2 n2 =>
          simpa [applyObjEvent, applyFaceOp, triPosTriple, storedNormalTriple,
            storedUvTriple, List.filterMap_cons, List.append_assoc] using
            ih { m with
              pointIndices := m.pointIndices ++ [(v0 - 1, v1 - 1, v2 - 1)],
              normalIndices := m.normalIndices ++ [(t0 - 1, t1 - 1, t2 - 1)],
              uvIndices := m.uvIndices ++ [(n0 - 1, n1 - 1, n2 - 1)] }
      | quadFace v0 v1 v2 v3 =>
          simpa [applyObjEvent, triPosTriple, storedNormalTriple,
            storedUvTriple, List.filterMap_cons] using ih m
      | polyFaceVertex v0 =>
          simpa [applyObjEvent, triPosTriple, storedNormalTriple,
            storedUvTriple, List.filterMap_cons] using ih m
      | miscEvent =>
          simpa [applyObjEvent, triPosTriple, storedNormalTriple,
            storedUvTriple, List.filterMap_cons] using ih m

/-- **C9** — code bug at the position+uv+normal face variant.  The claim
says each triangular face event appends one face-index triple per index
kind, decremented to 0-based; the position-only, position+uv and
position+normal variants and the returned decoder boolean do behave so,
but the position+uv+normal callback passes the texture components as
`newNormalIndices` and the normal components as `newUvIndices`
(`std::get<1>`/`std::get<2>` swapped relative to the parameter names of
`addPointNormalUvFace`).  Evaluating the faithful embedding at the
single event `f 1/2/3 1/2/3 1/2/3`: the mesh's `normalFaces` holds the
decremented *texture* triple `(1,1,1)` and `uvFaces` the decremented
*normal* triple `(2,2,2)`, the reverse of the per-kind triples the claim
prescribes — while everything else (position triple, the other variants
being untouched, the success boolean) matches the claim. -/
theorem readObj_ptn_swap_bug :
    ((emptyMesh.readObj [.triFacePTN 1 2 3 1 2 3 1 2 3] true).2 = true ∧
     (emptyMesh.readObj
       [.triFacePTN 1 2 3 1 2 3 1 2 3] true).1.pointIndices = [(0, 0, 0)] ∧
     (emptyMesh.readObj
       [.triFacePTN 1 2 3 1 2 3 1 2 3] true).1.normalIndices = [(1, 1, 1)] ∧
     (emptyMesh.readObj
       [.triFacePTN 1 2 3 1 2 3 1 2 3] true).1.uvIndices = [(2, 2, 2)]) ∧
    (List.filterMap triNormalTriple
       [.triFacePTN 1 2 3 1 2 3 1 2 3] = [(2, 2, 2)] ∧
     List.filterMap triUvTriple
       [.triFacePTN 1 2 3 1 2 3 1 2 3] = [(1, 1, 1)]) ∧
    (emptyMesh.readObj
       [.triFacePTN 1 2 3 1 2 3 1 2 3] true).1.normalIndices ≠
      List.filterMap triNormalTriple [.triFacePTN 1 2 3 1 2 3 1 2 3] ∧
    (emptyMesh.readObj
       [.triFacePTN 1 2 3 1 2 3 1 2 3] true).1.uvIndices ≠
      List.filterMap triUvTriple [.triFacePTN 1 2 3 1 2 3 1 2 3] := by
  decide
